import Mathlib

/-!
Verification of the psql-wire row writer (`row.go`) and the server option
configuration layer against the repository specification.

The row writer (`Columns.Define` / `Columns.Write` / `Column.Define` /
`Column.Write`) is embedded directly from `row.go`.  The framed message
writer (`internal/buffer.Writer`) and the option layer (`options.go`) are
not part of the sources; they are modelled from the specification
(§4.1 frame codec, §4.7 server / option configuration) and from the
behaviour pinned by `options_test.go`.

Go strings are byte sequences, so byte strings (column names, encoded
values, wire output) are modelled as `List Nat` with each element a byte
value; machine integers are modelled as `Int` with explicit reduction
modulo 2^16 / 2^32 where the Go code casts to int16 / int32.
-/

namespace PsqlWire

/-- Big-endian two-byte encoding of an int16 value (two's complement via
reduction mod 2^16), as emitted by the frame writer's `AddInt16`. -/
def int16be (n : Int) : List Nat :=
  let m := (n % 65536).toNat
  [m / 256 % 256, m % 256]

/-- Big-endian four-byte encoding of an int32 value (two's complement via
reduction mod 2^32), as emitted by the frame writer's `AddInt32`. -/
def int32be (n : Int) : List Nat :=
  let m := (n % 4294967296).toNat
  [m / 16777216 % 256, m / 65536 % 256, m / 256 % 256, m % 256]

/-- Message type byte of a RowDescription server message, the character T. -/
def serverRowDescription : Nat := 84

/-- Message type byte of a DataRow server message, the character D. -/
def serverDataRow : Nat := 68

/-- Modelled from the spec: the framed message writer of §4.1
(`internal/buffer.Writer` is not among the sources).  `out` is the byte
stream already written to the wire, `msgType`/`payload` hold the message
currently under construction between `Start` and `End`. -/
structure Writer where
  out : List Nat
  msgType : Option Nat
  payload : List Nat
deriving DecidableEq, Repr

/-- Modelled from the spec: `Start(type)` begins a typed message, resetting
the payload under construction. -/
def Writer.start (w : Writer) (t : Nat) : Writer :=
  { w with msgType := some t, payload := [] }

/-- Modelled from the spec: append raw bytes to the current payload. -/
def Writer.addBytes (w : Writer) (bs : List Nat) : Writer :=
  { w with payload := w.payload ++ bs }

/-- Modelled from the spec: `AddInt16` appends a big-endian int16. -/
def Writer.addInt16 (w : Writer) (n : Int) : Writer :=
  w.addBytes (int16be n)

/-- Modelled from the spec: `AddInt32` appends a big-endian int32. -/
def Writer.addInt32 (w : Writer) (n : Int) : Writer :=
  w.addBytes (int32be n)

/-- Modelled from the spec: `AddString` appends the bytes of a string
(Go strings are byte sequences). -/
def Writer.addString (w : Writer) (s : List Nat) : Writer :=
  w.addBytes s

/-- Modelled from the spec: `AddNullTerminate` appends a zero byte. -/
def Writer.addNullTerminate (w : Writer) : Writer :=
  w.addBytes [0]

/-- Modelled from the spec: `End` flushes the message under construction to
the wire as `<type:u8><length:i32 including the length field><payload>`
(§4.1).  Flushing cannot fail in the model. -/
def Writer.End (w : Writer) : Writer :=
  match w.msgType with
  | none => w
  | some t =>
    { out := w.out ++ t :: (int32be ((w.payload.length : Int) + 4) ++ w.payload)
      msgType := none
      payload := [] }

/-- Column formats, text or binary (`FormatCode` in the sources). -/
inductive FormatCode where
  | text
  | binary
deriving DecidableEq, Repr

/-- Wire encoding of a format code: 0 for text, 1 for binary. -/
def FormatCode.toInt : FormatCode → Int
  | .text => 0
  | .binary => 1

/-- Modelled from the spec: a registered type codec (§4.2; the
`pgtype.DataType` registry is not among the sources).  `set` models
`Value.Set(src)` (which may fail), `encodeText`/`encodeBinary` model the
text/binary encoders applied after `Set`; both are functions of the host
value that `Set` stored.  A `none` host value is Go `nil`. -/
structure DataType where
  set : Option (List Nat) → Except String Unit
  encodeText : Option (List Nat) → Except String (List Nat)
  encodeBinary : Option (List Nat) → Except String (List Nat)

/-- Modelled from the spec: the OID → codec registry consulted through
`ci.DataTypeForOID` (§4.2). -/
def TypeRegistry : Type := Nat → Option DataType

/-- Modelled from the spec: the slice of a Go context relevant to the row
writer — cooperative cancellation (`ctx.Err()`) and the connection's type
registry stored in the context (`TypeInfo(ctx)`). -/
structure Context where
  err : Option String
  typeInfo : Option TypeRegistry

/-- `Format.Encoder` of the sources: pick the text or binary encoder of a
registered codec. -/
def FormatCode.Encoder : FormatCode → DataType → (Option (List Nat) → Except String (List Nat))
  | .text, typed => typed.encodeText
  | .binary, typed => typed.encodeBinary

/-- A table column and its attributes (`Column` of `row.go`). -/
structure Column where
  table : Int
  name : List Nat
  attrNo : Int
  oid : Nat
  width : Int
  typeModifier : Int
  format : FormatCode
deriving DecidableEq, Repr

/-- `Column.Define` of `row.go`: append the column header values to the
writer.  Note the source writes the constant `-1` for the type modifier
(the `TypeModifier` field is not consulted; type modifiers are marked as
unsupported in the source). -/
def Column.define (column : Column) (ctx : Context) (writer : Writer) : Writer :=
  let _ := ctx
  ((((((writer.addString column.name).addNullTerminate).addInt32
      column.table).addInt16 column.attrNo).addInt32
      (column.oid : Int)).addInt16 column.width).addInt32 (-1)
    |>.addInt16 column.format.toInt

/-- `Column.Write` of `row.go`: encode one value of a data row.  Returns the
updated writer and an optional error; on error the source returns before
appending anything, so the writer is returned unchanged. -/
def Column.write (column : Column) (ctx : Context) (writer : Writer)
    (src : Option (List Nat)) : Writer × Option String :=
  match ctx.err with
  | some e => (writer, some e)
  | none =>
    match ctx.typeInfo with
    | none =>
      (writer, some "postgres connection info has not been defined inside the given context")
    | some ci =>
      match ci column.oid with
      | none => (writer, some "unknown data type")
      | some typed =>
        match typed.set src with
        | .error e => (writer, some e)
        | .ok _ =>
          match column.format.Encoder typed src with
          | .error e => (writer, some e)
          | .ok bb =>
            let length : Int := if src.isNone then -1 else (bb.length : Int)
            ((writer.addInt32 length).addBytes bb, none)

/-- Collection of columns (`Columns` of `row.go`). -/
abbrev Columns : Type := List Column

/-- `Columns.Define` of `row.go`: for an empty column set return immediately
without touching the writer; otherwise start a RowDescription message,
write the column count as int16, each column's header, and end the
message. -/
def Columns.define (columns : Columns) (ctx : Context) (writer : Writer) :
    Except String Writer :=
  if List.length columns = 0 then .ok writer
  else
    let w := (writer.start serverRowDescription).addInt16 (List.length columns : Int)
    let w := List.foldl (fun w c => Column.define c ctx w) w columns
    .ok w.End

/-- The loop body of `Columns.Write`: write each value with its column,
returning at the first error. -/
def writeValues (ctx : Context) : List Column → List (Option (List Nat)) → Writer →
    Writer × Option String
  | [], _, w => (w, none)
  | _ :: _, [], w => (w, none)
  | c :: cs, s :: ss, w =>
    match Column.write c ctx w s with
    | (w', none) => writeValues ctx cs ss w'
    | (w', some e) => (w', some e)

/-- `Columns.Write` of `row.go`: reject a value list whose length differs
from the declared column count before starting any message; otherwise
start a DataRow message, write the column count as int16 and each value,
and end the message (nothing reaches the wire if a column write fails,
since `End` is never called). -/
def Columns.write (columns : Columns) (ctx : Context) (writer : Writer)
    (srcs : List (Option (List Nat))) : Writer × Option String :=
  if List.length srcs ≠ List.length columns then
    (writer, some "unexpected columns")
  else
    let w := (writer.start serverDataRow).addInt16 (List.length columns : Int)
    match writeValues ctx columns srcs w with
    | (w', none) => (w'.End, none)
    | (w', some e) => (w', some e)

/-- The per-column byte sequence appended to a RowDescription payload by
`Column.Define`: null-terminated name, table id, attribute number, oid,
width, the constant type modifier -1 and the format code. -/
def Column.defineBytes (c : Column) : List Nat :=
  c.name ++ 0 :: (int32be c.table ++ int16be c.attrNo ++ int32be (c.oid : Int) ++
    int16be c.width ++ int32be (-1) ++ int16be c.format.toInt)

/-- The payload of the RowDescription message built by `Columns.Define`:
the column count followed by each column's header bytes. -/
def rowDescriptionBody (columns : Columns) : List Nat :=
  int16be (List.length columns : Int) ++ (List.map Column.defineBytes columns).flatten

/-! ## Server / option configuration

`options.go` is not among the sources; the definitions below are modelled
from the specification (§4.7, §6, §9) and from the behaviour pinned by
`options_test.go`. -/

/-- Modelled from the spec: a per-session Go context, as a store of
key/value pairs (`context.WithValue` conses a pair). -/
def SessionCtx : Type := List (String × String)

/-- Modelled from the spec: a `Session` hook, `(ctx) → (ctx, err)` (§6). -/
def SessionFn : Type := SessionCtx → Except String SessionCtx

/-- Modelled from the spec: a prepared statement function.  The only
constructor the option layer produces is the implicit wrapper synthesised
by `SimpleQuery`, closing over the (possibly nil) callback and the query
text (§4.7). -/
inductive PreparedStatement where
  | simpleWrap (fn : Option Unit) (query : String)

/-- Modelled from the spec: a parse handler `(ctx, sql) → (stmt_fn,
param_oids, err)` (§6); a `none` statement is a nil Go function value. -/
def ParseFn : Type :=
  SessionCtx → String → Except String (Option PreparedStatement × List Nat)

/-- Modelled from the spec: a server assembled from a list of
option-applying functions.  Only the fields the verified claims touch are
modelled: the parse handler and the session hook. -/
structure Server where
  parse : Option ParseFn
  session : Option SessionFn

/-- Modelled from the spec: an option is a server-mutating function that
may reject (§9 builder with validation). -/
def OptionFn : Type := Server → Except String Server

/-- Modelled from the spec: the `Parse` option installs the parse
handler. -/
def Parse (fn : ParseFn) : OptionFn := fun srv =>
  .ok { srv with parse := some fn }

/-- Modelled from the spec: the `$N` / `?` placeholder scan used to derive
parameter OIDs — leftmost non-overlapping matches of a positional `$`
followed by one or more digits, or an anonymous `?` (§4.7, §4.6).  The
fuel argument, instantiated with the list length by `scanPlaceholders`,
makes the recursion structural. -/
def scanAux : Nat → List Char → List String
  | _, [] => []
  | 0, _ => []
  | fuel + 1, '?' :: rest => "?" :: scanAux fuel rest
  | fuel + 1, '$' :: rest =>
    if (rest.takeWhile Char.isDigit).isEmpty then scanAux fuel rest
    else ("$" ++ (rest.takeWhile Char.isDigit).asString) ::
      scanAux fuel (rest.drop (rest.takeWhile Char.isDigit).length)
  | fuel + 1, _ :: rest => scanAux fuel rest

/-- Modelled from the spec: all `$N` / `?` placeholder matches of a SQL
text, in order. -/
def scanPlaceholders (l : List Char) : List String := scanAux l.length l

/-- Number of `$N` / `?` placeholders in a SQL string — an independent
characterization: every `?`, and every `$` immediately followed by a
digit, begins exactly one placeholder. -/
def countPlaceholders : List Char → Nat
  | [] => 0
  | '?' :: rest => countPlaceholders rest + 1
  | '$' :: c :: rest => (if c.isDigit then 1 else 0) + countPlaceholders (c :: rest)
  | _ :: rest => countPlaceholders rest

/-- Modelled from the spec: `ParseParameters` derives the parameter OID
list of a query by returning one zero OID per placeholder found (§4.7). -/
def parseParameters (query : String) : List Nat :=
  List.map (fun _ => 0) (scanPlaceholders query.toList)

/-- Modelled from the spec and `options_test.go`: the `SimpleQuery` option
rejects a server that already has a parse handler (`TestInvalidOptions`),
and otherwise synthesises an implicit parse handler wrapping the callback,
deriving the parameter OIDs with `parseParameters` (§4.7,
`TestSimpleQueryParameters`). -/
def SimpleQuery (fn : Option Unit) : OptionFn := fun srv =>
  match srv.parse with
  | some _ => .error "simple query handler could not be set, a parse handler is already set"
  | none =>
    .ok { srv with parse := some (fun _ctx query =>
      .ok (some (.simpleWrap fn query), parseParameters query)) }

/-- The server `NewServer [SimpleQuery fn]` assembles: the synthesized
parse handler wrapping the callback, and the fallback identity session
hook. -/
def simpleQueryServer (fn : Option Unit) : Server where
  parse := some (fun _ctx query => .ok (some (.simpleWrap fn query), parseParameters query))
  session := some (fun ctx => .ok ctx)

/-- Modelled from the spec: the `Session` option chains — the first hook
installed receives the incoming context, each later hook receives the
context produced by the previous one, and an error short-circuits (§4.7,
§9). -/
def Session (fn : SessionFn) : OptionFn := fun srv =>
  match srv.session with
  | none => .ok { srv with session := some fn }
  | some hook =>
    .ok { srv with session := some (fun ctx =>
      match hook ctx with
      | .error e => .error e
      | .ok ctx' => fn ctx') }

/-- Modelled from the spec and `options_test.go`: the session hook a server
falls back to when no `Session` option was given — the identity
(`TestNilSessionHandler`). -/
def defaultSession : SessionFn := fun ctx => .ok ctx

/-- Modelled from the spec: apply the option list left to right, stopping
at the first rejection (§4.7). -/
def applyOptions : List OptionFn → Server → Except String Server
  | [], srv => .ok srv
  | o :: os, srv =>
    match o srv with
    | .error e => .error e
    | .ok srv' => applyOptions os srv'

/-- Modelled from the spec and `options_test.go`: `NewServer` applies the
options to an empty server and installs the identity session hook when
none was configured.  Note `NewServer()` with no handler at all succeeds
(`TestNilSessionHandler`). -/
def newServer (options : List OptionFn) : Except String Server :=
  match applyOptions options { parse := none, session := none } with
  | .error e => .error e
  | .ok srv => .ok { srv with session := some (srv.session.getD defaultSession) }

/-- Sequential composition of session hooks, as the specification words it:
each hook receives the context produced by the previous one, an error
short-circuits. -/
def chainSessions : List SessionFn → SessionCtx → Except String SessionCtx
  | [], ctx => .ok ctx
  | f :: fs, ctx =>
    match f ctx with
    | .error e => .error e
    | .ok ctx' => chainSessions fs ctx'

/-- A concrete well-behaved codec for witnesses: `Set` always succeeds and
both encoders return the stored bytes (empty for a nil value), as the
standard pgtype text codecs do. -/
def textCodec : DataType where
  set := fun _ => .ok ()
  encodeText := fun src => .ok (src.getD [])
  encodeBinary := fun src => .ok (src.getD [])

/-- A concrete registry for witnesses: OID 25 (text) maps to `textCodec`,
every other OID is unregistered. -/
def textRegistry : TypeRegistry := fun o => if o = 25 then some textCodec else none

/-- A concrete context for witnesses: not cancelled, carrying
`textRegistry`. -/
def textContext : Context := { err := none, typeInfo := some textRegistry }

/-! ## Helper lemmas -/

theorem define_eq (c : Column) (ctx : Context) (w : Writer) :
    Column.define c ctx w = { w with payload := w.payload ++ c.defineBytes } := by
  simp [Column.define, Column.defineBytes, Writer.addString, Writer.addNullTerminate,
    Writer.addBytes, Writer.addInt16, Writer.addInt32, List.append_assoc]

theorem foldl_define_eq (ctx : Context) (cs : List Column) :
    ∀ w : Writer,
      List.foldl (fun w c => Column.define c ctx w) w cs =
        { w with payload := w.payload ++ (List.map Column.defineBytes cs).flatten } := by
  induction cs with
  | nil => intro w; simp
  | cons c cs ih =>
    intro w
    rw [List.foldl_cons, ih]
    simp [define_eq, List.append_assoc]

theorem write_shape (c : Column) (ctx : Context) (w : Writer) (src : Option (List Nat)) :
    ∃ extra, (Column.write c ctx w src).1 = { w with payload := w.payload ++ extra } := by
  cases herr : ctx.err with
  | some e => exact ⟨[], by simp [Column.write, herr]⟩
  | none =>
    cases hti : ctx.typeInfo with
    | none => exact ⟨[], by simp [Column.write, herr, hti]⟩
    | some ci =>
      cases hoid : ci c.oid with
      | none => exact ⟨[], by simp [Column.write, herr, hti, hoid]⟩
      | some typed =>
        cases hset : typed.set src with
        | error e => exact ⟨[], by simp [Column.write, herr, hti, hoid, hset]⟩
        | ok u =>
          cases henc : c.format.Encoder typed src with
          | error e => exact ⟨[], by simp [Column.write, herr, hti, hoid, hset, henc]⟩
          | ok bb =>
            refine ⟨int32be (if src.isNone then -1 else (bb.length : Int)) ++ bb, ?_⟩
            simp [Column.write, herr, hti, hoid, hset, henc, Writer.addInt32,
              Writer.addBytes, List.append_assoc]

theorem writeValues_shape (ctx : Context) (cs : List Column) :
    ∀ (ss : List (Option (List Nat))) (w : Writer),
      ∃ extra, (writeValues ctx cs ss w).1 = { w with payload := w.payload ++ extra } := by
  induction cs with
  | nil => intro ss w; exact ⟨[], by simp [writeValues]⟩
  | cons c cs ih =>
    intro ss w
    cases ss with
    | nil => exact ⟨[], by simp [writeValues]⟩
    | cons s ss =>
      obtain ⟨e1, h1⟩ := write_shape c ctx w s
      cases hw : Column.write c ctx w s with
      | mk w' res =>
        rw [hw] at h1
        have h1' : w' = { w with payload := w.payload ++ e1 } := h1
        cases res with
        | none =>
          obtain ⟨e2, h2⟩ := ih ss w'
          refine ⟨e1 ++ e2, ?_⟩
          simp only [writeValues, hw]
          rw [h2, h1']
          simp [List.append_assoc]
        | some e =>
          refine ⟨e1, ?_⟩
          simp only [writeValues, hw]
          exact h1'

/-! ## Claim theorems -/

/-- C9: `Columns.Define` applied to an empty column set returns without an
error and writes nothing to the output buffer — no RowDescription message
(not even one with count 0) is emitted, the writer is returned
unchanged. -/
theorem columnsDefine_empty (ctx : Context) (w : Writer) :
    Columns.define [] ctx w = .ok w := rfl

/-- C10: if the context passed to `Column.Write` is already cancelled
(`ctx.Err()` non-nil), `Column.Write` returns that context error and the
writer is unchanged, regardless of the type registry in the context —
the registry is never consulted and no codec runs. -/
theorem columnWrite_cancelled (c : Column) (e : String) (ti : Option TypeRegistry)
    (w : Writer) (src : Option (List Nat)) :
    Column.write c { err := some e, typeInfo := ti } w src = (w, some e) := rfl

/-- C8: for a column whose OID has no registered codec in the connection's
type registry, `Column.Write` fails with the unsupported-type error and
appends no length or value bytes — the writer is returned unchanged. -/
theorem columnWrite_unknownOid (c : Column) (ci : TypeRegistry) (w : Writer)
    (src : Option (List Nat)) (h : ci c.oid = none) :
    Column.write c { err := none, typeInfo := some ci } w src =
      (w, some "unknown data type") := by
  simp [Column.write, h]

/-- Witness for C8 at a concrete column, registry and writer. -/
theorem columnWrite_unknownOid_witness :
    Column.write ⟨0, [110], 0, 600, 4, 0, .text⟩
      { err := none, typeInfo := some textRegistry }
      ⟨[], none, []⟩ (some [74]) =
      (⟨[], none, []⟩, some "unknown data type") :=
  columnWrite_unknownOid _ _ _ _ rfl

/-- C4 counterexample: a column carrying the explicitly provided type
modifier 7 still has `-1` encoded in the type_mod slot of its
RowDescription entry — the provided value is not encoded. -/
theorem columnDefine_typeModifier_cex :
    (Column.define ⟨0, [110], 0, 25, 4, 7, .text⟩
        { err := none, typeInfo := none } ⟨[], none, []⟩).payload =
      [110, 0, 0, 0, 0, 0, 0, 0, 0, 0, 0, 25, 0, 4, 255, 255, 255, 255, 0, 0] ∧
    int32be 7 ≠ int32be (-1) := by
  constructor
  · rfl
  · decide

/-- C4 (amended): the type_mod field written into the RowDescription entry
by `Column.Define` is always `-1`; the column's `TypeModifier` field is
ignored even when explicitly provided (type modifiers are unsupported in
the source). -/
theorem columnDefine_typeModifier_always_minus_one (c : Column) (ctx : Context) (w : Writer) :
    Column.define c ctx w =
      { w with payload := w.payload ++
          (c.name ++ 0 :: (int32be c.table ++ int16be c.attrNo ++ int32be (c.oid : Int) ++
            int16be c.width ++ int32be (-1) ++ int16be c.format.toInt)) } := by
  simp [Column.define, Writer.addString, Writer.addNullTerminate, Writer.addBytes,
    Writer.addInt16, Writer.addInt32, List.append_assoc]

/-- C1 counterexample: for a nil host value the codec IS invoked — with a
registered codec whose `Set` fails, `Column.Write` of nil returns that
codec error and emits no `-1` sentinel at all, contradicting
"the codec is not invoked" and "emits the -1 length sentinel". -/
theorem columnWrite_null_cex :
    Column.write ⟨0, [110], 0, 25, 4, 0, .text⟩
      { err := none,
        typeInfo := some (fun o => if o = 25 then
          some { set := fun _ => .error "set failed",
                 encodeText := fun _ => .ok [],
                 encodeBinary := fun _ => .ok [] } else none) }
      ⟨[], none, []⟩ none =
      (⟨[], none, []⟩, some "set failed") := rfl

/-- C1 (amended): for a nil host value `Column.Write` still consults the
registry and invokes the codec (`Set` then the format's encoder, whose
errors propagate); when both succeed and the encoder returns no bytes for
nil — as the standard codecs do — the column field carries exactly the
`-1:i32` length sentinel and no value bytes. -/
theorem columnWrite_null_sentinel (c : Column) (ci : TypeRegistry) (typed : DataType)
    (w : Writer)
    (h1 : ci c.oid = some typed) (h2 : typed.set none = .ok ())
    (h3 : c.format.Encoder typed none = .ok []) :
    Column.write c { err := none, typeInfo := some ci } w none =
      ({ w with payload := w.payload ++ int32be (-1) }, none) := by
  simp [Column.write, h1, h2, h3, Writer.addInt32, Writer.addBytes]

/-- Witness for C1 (amended): a one-column row value written with nil under
the standard text codec carries the bytes 255 255 255 255 (`-1:i32`) and
nothing else. -/
theorem columnWrite_null_sentinel_witness :
    Column.write ⟨0, [110], 0, 25, 4, 0, .text⟩ textContext ⟨[], none, []⟩ none =
      (⟨[], none, [255, 255, 255, 255]⟩, none) := by
  unfold textContext
  rw [columnWrite_null_sentinel ⟨0, [110], 0, 25, 4, 0, .text⟩ textRegistry textCodec
    ⟨[], none, []⟩ rfl rfl rfl]
  decide

/-- C5: for a non-empty column set, `Columns.Define` emits exactly one
RowDescription message: type byte T, the frame length, then a payload of
count:i16 followed, for each column in order, by the null-terminated name,
table:i32, attr:i16, oid:i32, width:i16, type_mod:i32, format:i16 — in
exactly that field order (`rowDescriptionBody` spells the layout out). -/
theorem columnsDefine_layout (columns : Columns) (ctx : Context) (w : Writer)
    (h : columns ≠ []) :
    Columns.define columns ctx w =
      .ok { out := w.out ++ serverRowDescription ::
              (int32be (((rowDescriptionBody columns).length : Int) + 4) ++
                rowDescriptionBody columns),
            msgType := none, payload := [] } := by
  have hlen : ¬ (List.length columns = 0) := by
    intro h0
    exact h (List.length_eq_zero.mp h0)
  simp only [Columns.define, if_neg hlen, Writer.start, Writer.addInt16, Writer.addBytes,
    foldl_define_eq]
  simp [Writer.End, rowDescriptionBody, List.append_assoc]

/-- Witness for C5 at a concrete one-column set: the full RowDescription
frame is produced byte for byte. -/
theorem columnsDefine_layout_witness :
    Columns.define [⟨0, [110], 0, 25, 4, 0, .text⟩] { err := none, typeInfo := none }
        ⟨[], none, []⟩ =
      .ok ⟨[84, 0, 0, 0, 26, 0, 1,
            110, 0, 0, 0, 0, 0, 0, 0, 0, 0, 0, 25, 0, 4, 255, 255, 255, 255, 0, 0],
           none, []⟩ := by
  rw [columnsDefine_layout [⟨0, [110], 0, 25, 4, 0, .text⟩] { err := none, typeInfo := none }
    ⟨[], none, []⟩ (List.cons_ne_nil _ _)]
  rfl

/-- C2: `Columns.Write` with a value list whose length differs from the
declared column count returns an error with the writer untouched — no
DataRow message is emitted at all; and whenever it succeeds it emits
exactly one DataRow frame whose payload leads with count:i16 equal to the
declared column count. -/
theorem columnsWrite_dataRow (columns : Columns) (ctx : Context) (w : Writer)
    (srcs : List (Option (List Nat))) :
    (List.length srcs ≠ List.length columns →
      Columns.write columns ctx w srcs = (w, some "unexpected columns")) ∧
    ((Columns.write columns ctx w srcs).2 = none →
      ∃ fields,
        (Columns.write columns ctx w srcs).1.out =
          w.out ++ serverDataRow ::
            (int32be (((int16be (List.length columns : Int) ++ fields).length : Int) + 4) ++
              (int16be (List.length columns : Int) ++ fields))) := by
  by_cases hlen : List.length srcs = List.length columns
  · have hcond : ¬(List.length srcs ≠ List.length columns) := by simpa using hlen
    refine ⟨fun hne => absurd hlen hne, fun hok => ?_⟩
    simp only [Columns.write, if_neg hcond] at hok ⊢
    obtain ⟨extra, hsh⟩ :=
      writeValues_shape ctx columns srcs
        ((w.start serverDataRow).addInt16 (List.length columns : Int))
    cases hw : writeValues ctx columns srcs
        ((w.start serverDataRow).addInt16 (List.length columns : Int)) with
    | mk w' res =>
      rw [hw] at hsh hok
      have hsh' : w' = { (w.start serverDataRow).addInt16 (List.length columns : Int) with
          payload := ((w.start serverDataRow).addInt16 (List.length columns : Int)).payload
            ++ extra } := hsh
      cases res with
      | none =>
        refine ⟨extra, ?_⟩
        simp [hsh', Writer.start, Writer.addInt16, Writer.addBytes, Writer.End,
          List.append_assoc]
      | some e => simp at hok
  · have hcond : List.length srcs ≠ List.length columns := hlen
    refine ⟨fun _ => ?_, fun hok => ?_⟩
    · simp only [Columns.write, if_pos hcond]
    · simp only [Columns.write, if_pos hcond] at hok
      simp at hok

/-- Witness for C2: a mismatched value list is rejected with the writer
untouched, and a matching one-value list produces a full DataRow frame
with leading count 1. -/
theorem columnsWrite_dataRow_witness :
    (Columns.write [⟨0, [110], 0, 25, 4, 0, .text⟩] textContext ⟨[], none, []⟩ [] =
      (⟨[], none, []⟩, some "unexpected columns")) ∧
    ((Columns.write [⟨0, [110], 0, 25, 4, 0, .text⟩] textContext ⟨[], none, []⟩
        [some [74]]).2 = none ∧
      ∃ fields,
        (Columns.write [⟨0, [110], 0, 25, 4, 0, .text⟩] textContext ⟨[], none, []⟩
            [some [74]]).1.out =
          [] ++ serverDataRow ::
            (int32be (((int16be 1 ++ fields).length : Int) + 4) ++
              (int16be 1 ++ fields))) := by
  refine ⟨(columnsWrite_dataRow [⟨0, [110], 0, 25, 4, 0, .text⟩] textContext
    ⟨[], none, []⟩ []).1 (by decide), rfl, ?_⟩
  exact (columnsWrite_dataRow [⟨0, [110], 0, 25, 4, 0, .text⟩] textContext
    ⟨[], none, []⟩ [some [74]]).2 rfl

theorem isDigit_ne_qmark {d : Char} (h : d.isDigit = true) : ¬ d = '?' := by
  rintro rfl
  exact absurd h (by decide)

theorem isDigit_ne_dollar {d : Char} (h : d.isDigit = true) : ¬ d = '$' := by
  rintro rfl
  exact absurd h (by decide)

theorem countPlaceholders_skip (ds : List Char) (t : List Char)
    (hds : ∀ d ∈ ds, d.isDigit = true) :
    countPlaceholders (ds ++ t) = countPlaceholders t := by
  induction ds with
  | nil => rfl
  | cons d ds ih =>
    have hd := hds d (List.mem_cons_self d ds)
    have step : countPlaceholders (d :: (ds ++ t)) = countPlaceholders (ds ++ t) := by
      simp [countPlaceholders, isDigit_ne_qmark hd, isDigit_ne_dollar hd]
    rw [List.cons_append, step, ih (fun d' hd' => hds d' (List.mem_cons_of_mem _ hd'))]

theorem drop_takeWhile (p : Char → Bool) (l : List Char) :
    l.drop (l.takeWhile p).length = l.dropWhile p := by
  induction l with
  | nil => rfl
  | cons c rest ih =>
    by_cases hc : p c
    · simp [List.takeWhile_cons, List.dropWhile_cons, hc, ih]
    · simp [List.takeWhile_cons, List.dropWhile_cons, hc]

theorem scanAux_length (fuel : Nat) :
    ∀ l : List Char, l.length ≤ fuel →
      (scanAux fuel l).length = countPlaceholders l := by
  induction fuel with
  | zero =>
    intro l h
    obtain rfl : l = [] := List.length_eq_zero.mp (Nat.le_zero.mp h)
    rfl
  | succ fuel ih =>
    intro l h
    cases l with
    | nil => rfl
    | cons c rest =>
      have hrest : rest.length ≤ fuel := by
        simp only [List.length_cons] at h
        omega
      by_cases hq : c = '?'
      · subst hq
        simp [scanAux, countPlaceholders, ih rest hrest]
      · by_cases hdol : c = '$'
        · subst hdol
          cases rest with
          | nil => simp [scanAux, countPlaceholders]
          | cons c' rest' =>
            by_cases hdig : c'.isDigit
            · have hne : ¬ ((List.takeWhile Char.isDigit (c' :: rest')).isEmpty = true) := by
                simp [List.takeWhile_cons, hdig]
              have hdw : (List.dropWhile Char.isDigit (c' :: rest')).length ≤ fuel := by
                have h1 : (List.dropWhile Char.isDigit (c' :: rest')).length ≤
                    (c' :: rest').length := by
                  rw [← drop_takeWhile Char.isDigit (c' :: rest')]
                  simp only [List.length_drop]
                  omega
                exact le_trans h1 hrest
              simp only [scanAux, if_neg hne, List.length_cons]
              rw [drop_takeWhile Char.isDigit (c' :: rest'), ih _ hdw]
              have hsplit : countPlaceholders (c' :: rest') =
                  countPlaceholders (List.dropWhile Char.isDigit (c' :: rest')) := by
                conv_lhs => rw [← List.takeWhile_append_dropWhile Char.isDigit (c' :: rest')]
                exact countPlaceholders_skip _ _ (fun d hd => List.mem_takeWhile_imp hd)
              have hcount : countPlaceholders ('$' :: c' :: rest') =
                  1 + countPlaceholders (c' :: rest') := by
                simp [countPlaceholders, hdig]
              rw [hcount, hsplit]
              omega
            · have hemp : (List.takeWhile Char.isDigit (c' :: rest')).isEmpty = true := by
                simp [List.takeWhile_cons, hdig]
              simp only [scanAux, if_pos hemp]
              rw [ih _ hrest]
              simp [countPlaceholders, hdig]
        · have hs : scanAux (fuel + 1) (c :: rest) = scanAux fuel rest := by
            simp [scanAux, hq, hdol]
          have hcnt : countPlaceholders (c :: rest) = countPlaceholders rest := by
            simp [countPlaceholders, hq, hdol]
          rw [hs, hcnt, ih rest hrest]

theorem scanPlaceholders_length (l : List Char) :
    (scanPlaceholders l).length = countPlaceholders l :=
  scanAux_length l.length l (Nat.le_refl _)

/-- C3 counterexample: `NewServer` with no options at all — hence with
neither `Parse` nor `SimpleQuery` — succeeds and returns a server, rather
than an InvalidOption error (pinned by `TestNilSessionHandler`). -/
theorem newServer_no_handler_cex : ∃ srv, newServer [] = .ok srv := ⟨_, rfl⟩

/-- C3 (amended): `NewServer` succeeds when neither `Parse` nor
`SimpleQuery` is supplied; the InvalidOption error instead arises when
both are supplied — `SimpleQuery` rejects a server that already has a
parse handler (pinned by `TestInvalidOptions`). -/
theorem newServer_invalid_option (pf : ParseFn) (sq : Option Unit) :
    (∃ srv, newServer [] = .ok srv) ∧
    (∃ e, newServer [Parse pf, SimpleQuery sq] = .error e) :=
  ⟨⟨_, rfl⟩, ⟨_, rfl⟩⟩

/-- C6: when only `SimpleQuery` is supplied, the server's synthesized parse
function applied to any SQL string returns a non-nil statement function
together with a parameter-OID list whose length equals the number of
`$N` / `?` placeholders in the SQL and whose entries are all zero. -/
theorem simpleQuery_synthesizes_parse (fn : Option Unit) (srv : Server) (q : String)
    (h : newServer [SimpleQuery fn] = .ok srv) :
    ∃ p, srv.parse = some p ∧
      ∃ stmt oids, p [] q = .ok (some stmt, oids) ∧
        oids.length = countPlaceholders q.toList ∧
        ∀ x ∈ oids, x = 0 := by
  rw [show newServer [SimpleQuery fn] = Except.ok (simpleQueryServer fn) from rfl] at h
  injection h with h
  subst h
  refine ⟨_, rfl, .simpleWrap fn q, parseParameters q, rfl, ?_, ?_⟩
  · simp [parseParameters, scanPlaceholders_length]
  · intro x hx
    rcases List.mem_map.mp hx with ⟨a, ha, h0⟩
    exact h0.symm

/-- Witness for C6 at the test query of `TestSimpleQueryParameters`:
the synthesized parse function yields two zero OIDs, one per placeholder. -/
theorem simpleQuery_synthesizes_parse_witness :
    parseParameters "SELECT * FROM users WHERE id = $1 AND age > $2" = [0, 0] ∧
    ∃ srv, newServer [SimpleQuery none] = .ok srv ∧
      ∃ p, srv.parse = some p ∧
        ∃ stmt oids,
          p [] "SELECT * FROM users WHERE id = $1 AND age > $2" = .ok (some stmt, oids) ∧
          oids.length =
            countPlaceholders "SELECT * FROM users WHERE id = $1 AND age > $2".toList ∧
          ∀ x ∈ oids, x = 0 :=
  ⟨rfl, _, rfl,
    simpleQuery_synthesizes_parse none _ "SELECT * FROM users WHERE id = $1 AND age > $2" rfl⟩

theorem applyOptions_session_chain (fs : List SessionFn) :
    ∀ (p : Option ParseFn) (g0 : SessionFn),
      ∃ g', applyOptions (List.map Session fs) { parse := p, session := some g0 } =
          .ok { parse := p, session := some g' } ∧
        ∀ ctx, g' ctx = match g0 ctx with
          | .error e => .error e
          | .ok c => chainSessions fs c := by
  induction fs with
  | nil =>
    intro p g0
    refine ⟨g0, rfl, fun ctx => ?_⟩
    cases hg : g0 ctx <;> simp [chainSessions]
  | cons f fs ih =>
    intro p g0
    obtain ⟨g', h1, h2⟩ := ih p (fun ctx =>
      match g0 ctx with
      | .error e => .error e
      | .ok c => f c)
    refine ⟨g', ?_, fun ctx => ?_⟩
    · simpa [applyOptions, Session, List.map] using h1
    · rw [h2 ctx]
      cases hg : g0 ctx with
      | error e => simp
      | ok c => simp [chainSessions]

/-- C7: for any list of `Session` hook functions passed to `NewServer`, the
server's session operation applied to an input context equals the
sequential composition of the hooks: each receives the context produced
by the previous one (with errors short-circuiting), and the resulting
context is the one the server exposes. -/
theorem session_options_chain (fs : List SessionFn) (srv : Server) (ctx : SessionCtx)
    (h : newServer (List.map Session fs) = .ok srv) :
    ∃ g, srv.session = some g ∧ g ctx = chainSessions fs ctx := by
  cases fs with
  | nil =>
    rw [show newServer (List.map Session []) =
        Except.ok ({ parse := none, session := some defaultSession } : Server) from rfl] at h
    injection h with h
    subst h
    exact ⟨defaultSession, rfl, rfl⟩
  | cons f fs =>
    obtain ⟨g', h1, h2⟩ := applyOptions_session_chain fs none f
    have hns : newServer (List.map Session (f :: fs)) =
        .ok { parse := none, session := some g' } := by
      have happ : applyOptions (List.map Session (f :: fs))
          { parse := none, session := none } =
          .ok { parse := none, session := some g' } := by
        simpa [applyOptions, Session, List.map] using h1
      rw [newServer, happ]
      rfl
    rw [hns] at h
    injection h with h
    subst h
    refine ⟨g', rfl, ?_⟩
    rw [h2 ctx]
    cases hf : f ctx with
    | error e => simp [chainSessions, hf]
    | ok c => simp [chainSessions, hf]

/-- Witness for C7 with one concrete session hook: the server's session
function threads the background context through the hook. -/
theorem session_options_chain_witness :
    ∃ srv, newServer [Session (fun c => .ok (("k", "v") :: c))] = .ok srv ∧
      ∃ g, srv.session = some g ∧ g [] = .ok [("k", "v")] := by
  refine ⟨_, rfl, ?_⟩
  exact session_options_chain [fun c => .ok (("k", "v") :: c)] _ [] rfl

end PsqlWire
